import Mathlib

/-!
Verification of the feed-generator repository: a shallow embedding of the
event-ingestion pipeline (`src/firehose.ts`, with the block/follow handlers of
the extended firehose variant) and of the ranking/pagination handlers
(`src/algos/bob.ts`, the `cats` handler, `src/algos/news/usa.ts`,
`src/algos/lang/en.ts`) together with the HTTP serving boundary of
`src/app.ts` (`/xrpc/app.bsky.feed.getFeedSkeleton`).

Conventions of the embedding:
- SQL tables are lists of rows; the primary key (`uri` for posts, `id` for
  block/follow edges) is unique by construction because every insert is an
  insert-if-absent (`onConflict doNothing`, the key being the primary key).
- `new Date().toISOString()` timestamps are threaded as explicit arguments
  attached to each event, making event application deterministic.
- JavaScript string/number coercions (`parseInt`, `Number`, `toLowerCase`,
  `includes`) are modelled by executable functions on `String`/`Int`.
- A handler that can throw is modelled as `Except String Page`; the serving
  catch of the boundary is the `match` in `serveFeedSkeleton`.
-/

namespace FeedGen

/-- `charListHasPre needle hay` is true when `needle` is a prefix of `hay`
(character lists). Used to model JavaScript `String.prototype.includes`,
`startsWith` and `endsWith`. -/
def charListHasPre : List Char → List Char → Bool
  | [], _ => true
  | _ :: _, [] => false
  | c :: cs, d :: ds => c = d && charListHasPre cs ds

/-- `subAt hay needle` is true when `needle` occurs as a contiguous
subsequence of `hay`. -/
def subAt : List Char → List Char → Bool
  | [], n => n.isEmpty
  | h :: t, n => charListHasPre n (h :: t) || subAt t n

/-- Model of JavaScript `hay.includes(needle)`. -/
def containsSub (hay needle : String) : Bool :=
  subAt hay.toList needle.toList

/-- Model of JavaScript `s.toLowerCase()` (per-character lowering). -/
def jsToLower (s : String) : String :=
  String.mk (s.toList.map Char.toLower)

/-- Model of JavaScript `s.startsWith(pre)`. -/
def startsWithB (s pre : String) : Bool :=
  charListHasPre pre.toList s.toList

/-- Model of JavaScript `s.endsWith(suf)`. -/
def endsWithB (s suf : String) : Bool :=
  charListHasPre suf.toList.reverse s.toList.reverse

/-- Numeric value of a digit run. -/
def digitsVal (l : List Char) : Nat :=
  l.foldl (fun acc c => acc * 10 + (c.toNat - 48)) 0

/-- Model of JavaScript `parseInt(s, 10)`: parse the longest leading run of
decimal digits (after an optional minus sign); `none` models the `NaN`
result when no digits are found. -/
def jsParseInt (s : String) : Option Int :=
  match s.toList with
  | '-' :: rest =>
    match rest.takeWhile Char.isDigit with
    | [] => none
    | ds => some (-(digitsVal ds : Int))
  | l =>
    match l.takeWhile Char.isDigit with
    | [] => none
    | ds => some ((digitsVal ds : Int))

/-- Model of JavaScript `Number(s)` restricted to integer literals: the empty
string coerces to `0`, a (possibly signed) digit string to its value, and
anything else to `NaN`, modelled as `none`. -/
def jsNumberStr (s : String) : Option Int :=
  if s = "" then some 0
  else
    match s.toList with
    | '-' :: rest =>
      if rest ≠ [] ∧ rest.all Char.isDigit then some (-(digitsVal rest : Int)) else none
    | l => if l.all Char.isDigit then some ((digitsVal l : Int)) else none

/-- Model of JavaScript `Number(x)` where `x` is an absent-or-string query
parameter: `Number(undefined)` is `NaN`. -/
def jsNumberOpt : Option String → Option Int
  | none => none
  | some s => jsNumberStr s

/-- Embedding of the `limit` construction of `app.ts`
(`Number(limit) || 50` on the limit query parameter): `NaN` and `0` (and `-0`) are falsy
and fall back to the default `50`. -/
def coerceLimit (q : Option String) : Int :=
  match jsNumberOpt q with
  | none => 50
  | some n => if n = 0 then 50 else n

/-- Model of `JSON.stringify` on a list of strings (escaping ignored; the
embedding only ever compares these values for equality). -/
def jsonStringifyList (l : List String) : String :=
  "[" ++ String.intercalate "," (l.map (fun s => "\"" ++ s ++ "\"")) ++ "]"

/-- Model of the comma join of `Array.prototype.join`. -/
def joinComma (l : List String) : String :=
  String.intercalate "," l

/-- The embed of a post record: an image gallery (with per-image alt texts)
or an external link card, mirroring the two `$type` checks of the ingestor. -/
inductive Embed
  | images (alts : List String)
  | external (url : String)
deriving DecidableEq, Repr

/-- A rich-text facet feature; the ingestor only distinguishes tag features
(`app.bsky.richtext.facet#tag`) from everything else. -/
inductive FacetFeature
  | tag (t : String)
  | link (u : String)
deriving DecidableEq, Repr

/-- The payload of a post-create commit event, with the fields the ingestor
reads. Each facet is represented by its first feature, which is the only one
the ingestor inspects. -/
structure PostRecord where
  text : String
  langs : List String
  labelVals : List String
  embed : Option Embed
  facets : List FacetFeature
deriving DecidableEq, Repr

/-- A row of the `post` table (columns of the migrated schema). `hasImage`
and `hasAlt` are the 0/1 integers the code stores and compares. -/
structure PostRow where
  author : String
  uri : String
  cid : String
  indexedAt : String
  text : String
  langs : String
  likes : Nat
  replies : Nat
  labels : String
  hasImage : Nat
  hasAlt : Nat
  altText : String
  embedUrl : String
  tags : String
deriving DecidableEq, Repr

/-- A row of the `blocks` / `follows` tables: `id` is the record key (the
primary key), `src`/`dst` the two actors. -/
structure EdgeRow where
  id : String
  src : String
  dst : String
  createdAt : String
deriving DecidableEq, Repr

/-- The durable store: the three tables the ingestor writes. -/
structure Store where
  posts : List PostRow
  blocks : List EdgeRow
  follows : List EdgeRow
deriving DecidableEq, Repr

/-- The empty store. -/
def emptyStore : Store := ⟨[], [], []⟩

/-- The uri under which a post-create is stored:
`at://{did}/app.bsky.feed.post/{rkey}`. -/
def deriveUri (did rkey : String) : String :=
  "at://" ++ did ++ "/app.bsky.feed.post/" ++ rkey

/-- The row built by the post-create handler of `firehose.ts`. `hasAlt` is
not part of that insert and takes the column default `0` (migration 003). -/
def mkPostRow (did rkey cidv : String) (rec : PostRecord) (now : String) : PostRow where
  author := did
  uri := deriveUri did rkey
  cid := cidv
  indexedAt := now
  text := rec.text
  langs := joinComma rec.langs
  likes := 0
  replies := 0
  labels := joinComma rec.labelVals
  hasImage := match rec.embed with | some (.images _) => 1 | _ => 0
  hasAlt := 0
  altText :=
    match rec.embed with
    | some (.images alts) =>
      if alts.any (fun a => a ≠ "") then jsonStringifyList alts else ""
    | _ => ""
  embedUrl := match rec.embed with | some (.external u) => u | _ => ""
  tags := joinComma (rec.facets.filterMap fun f =>
    match f with | .tag t => some t | .link _ => none)

/-- A decoded commit event, tagged with the data the handlers read. The
`now` argument of the create events is the `new Date().toISOString()`
timestamp observed when the event is applied, attached to the event to make
application deterministic. -/
inductive Event
  | postCreate (did rkey cidv : String) (rec : PostRecord) (now : String)
  | postDelete (rkey : String)
  | likeCreate (subjectUri : String)
  | repostCreate (subjectUri : String)
  | blockCreate (rkey did subject now : String)
  | blockDelete (rkey : String)
  | followCreate (rkey did subject now : String)
  | followDelete (rkey : String)
deriving DecidableEq, Repr

/-- One step of the Event Ingestor: the jetstream `onCreate`/`onDelete`
handlers of `firehose.ts` (post/like/repost) and of the extended firehose
variant (block/follow).
- post-create: `INSERT … ON CONFLICT DO NOTHING` on the primary key `uri`;
- post-delete: `DELETE FROM post WHERE uri = event.commit.rkey` — note the
  bare record key, exactly as in the source;
- like/repost-create: the single relative `UPDATE … SET likes = likes + 1`
  (resp. `replies`) `WHERE uri = subject.uri`;
- block/follow create/delete: insert-if-absent by record key / delete by
  record key. -/
def applyEvent (e : Event) (T : Store) : Store :=
  match e with
  | .postCreate did rkey cidv rec now =>
    if T.posts.any (fun p => p.uri == deriveUri did rkey) then T
    else { T with posts := T.posts ++ [mkPostRow did rkey cidv rec now] }
  | .postDelete rkey =>
    { T with posts := T.posts.filter (fun p => p.uri != rkey) }
  | .likeCreate u =>
    { T with posts := T.posts.map (fun p =>
        if p.uri = u then { p with likes := p.likes + 1 } else p) }
  | .repostCreate u =>
    { T with posts := T.posts.map (fun p =>
        if p.uri = u then { p with replies := p.replies + 1 } else p) }
  | .blockCreate rkey did subject now =>
    if T.blocks.any (fun b => b.id == rkey) then T
    else { T with blocks := T.blocks ++ [⟨rkey, did, subject, now⟩] }
  | .blockDelete rkey =>
    { T with blocks := T.blocks.filter (fun b => b.id != rkey) }
  | .followCreate rkey did subject now =>
    if T.follows.any (fun f => f.id == rkey) then T
    else { T with follows := T.follows ++ [⟨rkey, did, subject, now⟩] }
  | .followDelete rkey =>
    { T with follows := T.follows.filter (fun f => f.id != rkey) }

/-- Sequential application of a stream of events (ingestion is sequential
per connection). -/
def applyEvents (s : List Event) (T : Store) : Store :=
  s.foldl (fun acc e => applyEvent e acc) T

/-- Primary-key lookup in the `post` table. -/
def lookupPost (T : Store) (u : String) : Option PostRow :=
  T.posts.find? (fun p => p.uri == u)

/-- Primary-key lookup in the `blocks` table. -/
def lookupBlock (T : Store) (i : String) : Option EdgeRow :=
  T.blocks.find? (fun b => b.id == i)

/-- Primary-key lookup in the `follows` table. -/
def lookupFollow (T : Store) (i : String) : Option EdgeRow :=
  T.follows.find? (fun f => f.id == i)

/-- Two stores hold the same state when every primary-key lookup agrees
(SQL tables are unordered; with unique keys the lookup functions determine
the row sets). -/
def StoreEq (T₁ T₂ : Store) : Prop :=
  (∀ u, lookupPost T₁ u = lookupPost T₂ u) ∧
  (∀ i, lookupBlock T₁ i = lookupBlock T₂ i) ∧
  (∀ i, lookupFollow T₁ i = lookupFollow T₂ i)

end FeedGen

namespace FeedGen

/-- A key-preserving pointwise update commutes with primary-key lookup. -/
theorem find?_map_update (l : List PostRow) (u : String) (f : PostRow → PostRow)
    (hf : ∀ p, (f p).uri = p.uri) :
    (l.map (fun p => if p.uri = u then f p else p)).find? (fun p => p.uri == u)
      = (l.find? (fun p => p.uri == u)).map (fun p => if p.uri = u then f p else p) := by
  induction l with
  | nil => rfl
  | cons p t ih =>
    by_cases h : p.uri = u
    · simp only [List.map_cons, List.find?_cons, if_pos h]
      have h1 : ((f p).uri == u) = true := by simp [hf p, h]
      have h2 : (p.uri == u) = true := by simp [h]
      simp [h1, h2, if_pos h]
    · simp only [List.map_cons, List.find?_cons, if_neg h]
      have h2 : (p.uri == u) = false := by simp [h]
      simp [h2, ih]

/-- Applying one like-create increments `likes` of the target row (when
present) and leaves the lookup of every other uri unchanged. -/
theorem lookupPost_like (T : Store) (u : String) :
    lookupPost (applyEvent (.likeCreate u) T) u
      = (lookupPost T u).map (fun p => { p with likes := p.likes + 1 }) := by
  have key := find?_map_update T.posts u (fun p => { p with likes := p.likes + 1 })
    (fun p => rfl)
  simp only [lookupPost, applyEvent]
  rw [key]
  cases h : T.posts.find? (fun p => p.uri == u) with
  | none => rfl
  | some p =>
    have := List.find?_some h
    have hu : p.uri = u := by simpa using this
    simp [if_pos hu]


/-- Claim C3 — counter correctness: any serialization of `n` like-create
events for an existing post uri (each a single atomic relative update in the
code, so every interleaving is some serialization) increases the target
`likes` by exactly `n`, with no lost updates. -/
theorem likes_increase_by_length (T : Store) (u : String) (row : PostRow)
    (s : List Event) (hrow : lookupPost T u = some row)
    (hs : ∀ e ∈ s, e = Event.likeCreate u) :
    lookupPost (applyEvents s T) u
      = some { row with likes := row.likes + s.length } := by
  induction s generalizing T row with
  | nil => simpa using hrow
  | cons e t ih =>
    have he : e = Event.likeCreate u := hs e (by simp)
    subst he
    have h1 : lookupPost (applyEvent (.likeCreate u) T) u
        = some { row with likes := row.likes + 1 } := by
      rw [lookupPost_like, hrow]; rfl
    have h2 := ih (applyEvent (.likeCreate u) T) _ h1
      (fun e he' => hs e (by simp [he']))
    have harith : row.likes + 1 + t.length = row.likes + (t.length + 1) := by omega
    calc lookupPost (applyEvents (Event.likeCreate u :: t) T) u
        = some { row with likes := row.likes + 1 + t.length } := h2
      _ = some { row with likes := row.likes + (t.length + 1) } := by rw [harith]
      _ = some { row with likes := row.likes + (Event.likeCreate u :: t).length } := by
          simp

/-- A pointwise update guarded by a uri that occurs nowhere leaves the post
list unchanged. -/
theorem map_guarded_eq_self (l : List PostRow) (u : String) (f : PostRow → PostRow) :
    l.find? (fun p => p.uri == u) = none →
    l.map (fun p => if p.uri = u then f p else p) = l := by
  induction l with
  | nil => intro _; rfl
  | cons p t ih =>
    intro habs
    have hp : ¬(p.uri = u) := by
      intro h
      rw [List.find?_cons_of_pos _ (by simp [h])] at habs
      exact absurd habs (by simp)
    have ht : t.find? (fun p => p.uri == u) = none := by
      rwa [List.find?_cons_of_neg _ (by simp [hp])] at habs
    simp only [List.map_cons, if_neg hp, ih ht]

/-- Claim C4 — orphan engagement: a like-create or repost-create whose
subject uri matches no Post row leaves the entire store unchanged (no
placeholder row, no modified row); the handler is a total function, so no
error is raised. -/
theorem orphan_like_repost_noop (T : Store) (u : String)
    (habs : lookupPost T u = none) :
    applyEvent (.likeCreate u) T = T ∧ applyEvent (.repostCreate u) T = T := by
  constructor
  · simp only [applyEvent]
    rw [map_guarded_eq_self T.posts u _ habs]
  · simp only [applyEvent]
    rw [map_guarded_eq_self T.posts u _ habs]

/-- Helper for witnesses: a one-post store holding the scenario post `P1`
(author `did:plc:alice`, rkey `r1`, text `hello #cats`, tag facet `cats`). -/
def cRec : PostRecord :=
  { text := "hello #cats", langs := ["en"], labelVals := [], embed := none,
    facets := [.tag "cats"] }

/-- The derived uri of the scenario post. -/
def cUri : String := deriveUri "did:plc:alice" "r1"

/-- The row the ingestor builds for the scenario post. -/
def cRow : PostRow := mkPostRow "did:plc:alice" "r1" "cid1" cRec "2024-01-01T00:00:00.000Z"

/-- The store after ingesting the scenario post-create. -/
def cStore : Store :=
  applyEvents [.postCreate "did:plc:alice" "r1" "cid1" cRec "2024-01-01T00:00:00.000Z"]
    emptyStore


/-- Witness for C3: three like-creates on the scenario post take `likes`
from 0 to 3. -/
theorem likes_increase_by_length_witness :
    lookupPost cStore cUri = some cRow ∧
    (∀ e ∈ List.replicate 3 (Event.likeCreate cUri), e = Event.likeCreate cUri) ∧
    lookupPost (applyEvents (List.replicate 3 (Event.likeCreate cUri)) cStore) cUri
      = some { cRow with likes := cRow.likes + (List.replicate 3 (Event.likeCreate cUri)).length } :=
  ⟨by decide, by decide,
    likes_increase_by_length cStore cUri cRow _ (by decide) (by decide)⟩

/-- Witness for C4: a like/repost for an absent uri leaves the scenario
store untouched. -/
theorem orphan_like_repost_noop_witness :
    lookupPost cStore "at://did:plc:bob/app.bsky.feed.post/zzz" = none ∧
    (applyEvent (.likeCreate "at://did:plc:bob/app.bsky.feed.post/zzz") cStore = cStore ∧
     applyEvent (.repostCreate "at://did:plc:bob/app.bsky.feed.post/zzz") cStore = cStore) :=
  ⟨by decide, orphan_like_repost_noop cStore _ (by decide)⟩


/-- Abstract per-key effect of one event on one table slot: insert-if-absent
with a fixed row, delete, or no effect. Like/repost counter updates are not
of this shape — that is the point of the correction of claim C2. -/
inductive KStep (α : Type)
  | ins (v : α)
  | del
  | skip
deriving Repr

/-- Semantics of a per-key step on the current slot value. -/
def kapply : KStep α → Option α → Option α
  | .ins v, none => some v
  | .ins _, some x => some x
  | .del, _ => none
  | .skip, o => o

/-- Word of per-key steps, applied left to right. -/
def runK (w : List (KStep α)) (o : Option α) : Option α :=
  w.foldl (fun o st => kapply st o) o

/-- Fill an absent slot with a default. -/
def oFill : Option α → Option α → Option α
  | some x, _ => some x
  | none, d => d

/-- Any word of insert-if-absent/delete/skip steps acts on a slot either as
`oFill · d` (no delete in the word) or as a constant (determined by the
suffix after the last delete). -/
theorem runK_shape (w : List (KStep α)) :
    (∃ d, ∀ o, runK w o = oFill o d) ∨ (∃ c, ∀ o, runK w o = c) := by
  induction w with
  | nil => exact Or.inl ⟨none, fun o => by cases o <;> rfl⟩
  | cons st t ih =>
    cases st with
    | skip => exact ih
    | del => exact Or.inr ⟨runK t none, fun o => rfl⟩
    | ins v =>
      rcases ih with ⟨d, hd⟩ | ⟨c, hc⟩
      · refine Or.inl ⟨oFill (some v) d, fun o => ?_⟩
        show runK t (kapply (.ins v) o) = oFill o (oFill (some v) d)
        cases o with
        | none => exact hd (some v)
        | some x => exact hd (some x)
      · exact Or.inr ⟨c, fun o => hc _⟩

/-- Insert-if-absent/delete/skip words are idempotent on every slot. -/
theorem runK_idem (w : List (KStep α)) (o : Option α) :
    runK w (runK w o) = runK w o := by
  rcases runK_shape w with ⟨d, hd⟩ | ⟨c, hc⟩
  · rw [hd o, hd]
    cases o with
    | some x => rfl
    | none => cases d <;> rfl
  · rw [hc, hc]

/-- Events that do not perform a counter update (like/repost-create). -/
def noCounterEvent : Event → Bool
  | .likeCreate _ => false
  | .repostCreate _ => false
  | _ => true

/-- Per-key effect of an event on the `post` table. -/
def postKStep (e : Event) (u : String) : KStep PostRow :=
  match e with
  | .postCreate did rkey cidv rec now =>
    if u = deriveUri did rkey then .ins (mkPostRow did rkey cidv rec now) else .skip
  | .postDelete rkey => if u = rkey then .del else .skip
  | _ => .skip

/-- Per-key effect of an event on the `blocks` table. -/
def blockKStep (e : Event) (i : String) : KStep EdgeRow :=
  match e with
  | .blockCreate rkey did subject now =>
    if i = rkey then .ins ⟨rkey, did, subject, now⟩ else .skip
  | .blockDelete rkey => if i = rkey then .del else .skip
  | _ => .skip

/-- Per-key effect of an event on the `follows` table. -/
def followKStep (e : Event) (i : String) : KStep EdgeRow :=
  match e with
  | .followCreate rkey did subject now =>
    if i = rkey then .ins ⟨rkey, did, subject, now⟩ else .skip
  | .followDelete rkey => if i = rkey then .del else .skip
  | _ => .skip

/-- Searching after appending one row. -/
theorem find?_snoc (l : List α) (x : α) (p : α → Bool) :
    (l ++ [x]).find? p = (l.find? p).or (if p x then some x else none) := by
  cases h : p x <;> simp [List.find?_append, List.find?_cons, h]

/-- Filtering by a predicate implied by the search predicate does not change
the search result. -/
theorem find?_filter_of_imp (l : List α) (p q : α → Bool)
    (h : ∀ a, p a = true → q a = true) :
    (l.filter q).find? p = l.find? p := by
  induction l with
  | nil => rfl
  | cons a t ih =>
    cases hq : q a with
    | true =>
      cases hp : p a with
      | true => simp [List.filter_cons, hq, List.find?_cons, hp]
      | false => simp [List.filter_cons, hq, List.find?_cons, hp, ih]
    | false =>
      have hp : p a = false := by
        cases hpa : p a with
        | true => exact absurd (h a hpa) (by simp [hq])
        | false => rfl
      simp [List.filter_cons, hq, List.find?_cons, hp, ih]


/-- Skip steps do nothing. -/
theorem kapply_skip (o : Option α) : kapply KStep.skip o = o := by
  cases o <;> rfl

/-- Delete steps clear the slot. -/
theorem kapply_del (o : Option α) : kapply KStep.del o = none := by
  cases o <;> rfl

/-- Per-key view of an insert-if-absent (`ON CONFLICT DO NOTHING`) on a
keyed list. -/
theorem find?_insertIfAbsent (l : List α) (key : α → String) (k : String) (x : α)
    (hx : key x = k) (u : String) :
    ((if l.any (fun a => key a == k) then l else l ++ [x]).find?
        (fun a => key a == u))
      = kapply (if u = k then KStep.ins x else KStep.skip)
          (l.find? (fun a => key a == u)) := by
  by_cases hany : (l.any fun a => key a == k) = true
  · rw [if_pos hany]
    by_cases huk : u = k
    · rw [if_pos huk]
      cases hf : l.find? (fun a => key a == u) with
      | some y => rfl
      | none =>
        exfalso
        obtain ⟨y, hy, hky⟩ := List.any_eq_true.mp hany
        exact (List.find?_eq_none.mp hf y hy) (by rw [huk]; exact hky)
    · rw [if_neg huk, kapply_skip]
  · rw [if_neg hany, find?_snoc]
    by_cases huk : u = k
    · rw [if_pos huk]
      have hnone : l.find? (fun a => key a == u) = none := by
        rw [List.find?_eq_none]
        intro y hy hky
        exact hany (List.any_eq_true.mpr ⟨y, hy, by rw [← huk]; exact hky⟩)
      have hxu : (key x == u) = true := by simp [hx, huk]
      simp [hnone, hxu, kapply]
    · rw [if_neg huk, kapply_skip]
      have hxu : (key x == u) = false := by
        simp only [beq_eq_false_iff_ne, Ne, hx]
        exact fun h => huk h.symm
      simp [hxu]
  
/-- Per-key view of a delete-by-key on a keyed list. -/
theorem find?_deleteKey (l : List α) (key : α → String) (k u : String) :
    ((l.filter fun a => key a != k).find? (fun a => key a == u))
      = kapply (if u = k then KStep.del else KStep.skip)
          (l.find? (fun a => key a == u)) := by
  by_cases huk : u = k
  · rw [if_pos huk, kapply_del, List.find?_eq_none]
    intro y hy hky
    have hmem := List.mem_filter.mp hy
    have h1 : key y ≠ k := by simpa using hmem.2
    have h2 : key y = u := by simpa using hky
    exact h1 (h2.trans huk)
  · rw [if_neg huk, kapply_skip, find?_filter_of_imp]
    intro a ha
    have h2 : key a = u := by simpa using ha
    simp [h2, huk]

/-- Locality: for events without counter updates, the effect of one event on
one `post`-table slot is its per-key step. -/
theorem lookupPost_applyEvent (e : Event) (T : Store) (u : String)
    (he : noCounterEvent e = true) :
    lookupPost (applyEvent e T) u = kapply (postKStep e u) (lookupPost T u) := by
  cases e with
  | postCreate did rkey cidv rec now =>
    have h := find?_insertIfAbsent T.posts (fun p => p.uri) (deriveUri did rkey)
      (mkPostRow did rkey cidv rec now) rfl u
    simpa [applyEvent, lookupPost, postKStep, apply_ite Store.posts] using h
  | postDelete rkey =>
    have h := find?_deleteKey T.posts (fun p => p.uri) rkey u
    simpa [applyEvent, lookupPost, postKStep, apply_ite Store.posts] using h
  | likeCreate v => simp [noCounterEvent] at he
  | repostCreate v => simp [noCounterEvent] at he
  | blockCreate rkey did subject now =>
    simp only [applyEvent, lookupPost, postKStep]
    split <;> simp [kapply_skip]
  | blockDelete rkey => simp [applyEvent, lookupPost, postKStep, kapply_skip]
  | followCreate rkey did subject now =>
    simp only [applyEvent, lookupPost, postKStep]
    split <;> simp [kapply_skip]
  | followDelete rkey => simp [applyEvent, lookupPost, postKStep, kapply_skip]

/-- Locality for the `blocks` table (the effect of every event on one slot is its
per-key step; counter updates never touch this table). -/
theorem lookupBlock_applyEvent (e : Event) (T : Store) (i : String) :
    lookupBlock (applyEvent e T) i = kapply (blockKStep e i) (lookupBlock T i) := by
  cases e with
  | blockCreate rkey did subject now =>
    have h := find?_insertIfAbsent T.blocks (fun b => b.id) rkey
      ⟨rkey, did, subject, now⟩ rfl i
    simpa [applyEvent, lookupBlock, blockKStep, apply_ite Store.blocks] using h
  | blockDelete rkey =>
    have h := find?_deleteKey T.blocks (fun b => b.id) rkey i
    simpa [applyEvent, lookupBlock, blockKStep, apply_ite Store.blocks] using h
  | postCreate did rkey cidv rec now =>
    simp only [applyEvent, lookupBlock, blockKStep]
    split <;> simp [kapply_skip]
  | postDelete rkey => simp [applyEvent, lookupBlock, blockKStep, kapply_skip]
  | likeCreate v => simp [applyEvent, lookupBlock, blockKStep, kapply_skip]
  | repostCreate v => simp [applyEvent, lookupBlock, blockKStep, kapply_skip]
  | followCreate rkey did subject now =>
    simp only [applyEvent, lookupBlock, blockKStep]
    split <;> simp [kapply_skip]
  | followDelete rkey => simp [applyEvent, lookupBlock, blockKStep, kapply_skip]

/-- Locality for the `follows` table. -/
theorem lookupFollow_applyEvent (e : Event) (T : Store) (i : String) :
    lookupFollow (applyEvent e T) i = kapply (followKStep e i) (lookupFollow T i) := by
  cases e with
  | followCreate rkey did subject now =>
    have h := find?_insertIfAbsent T.follows (fun f => f.id) rkey
      ⟨rkey, did, subject, now⟩ rfl i
    simpa [applyEvent, lookupFollow, followKStep, apply_ite Store.follows] using h
  | followDelete rkey =>
    have h := find?_deleteKey T.follows (fun f => f.id) rkey i
    simpa [applyEvent, lookupFollow, followKStep, apply_ite Store.follows] using h
  | postCreate did rkey cidv rec now =>
    simp only [applyEvent, lookupFollow, followKStep]
    split <;> simp [kapply_skip]
  | postDelete rkey => simp [applyEvent, lookupFollow, followKStep, kapply_skip]
  | likeCreate v => simp [applyEvent, lookupFollow, followKStep, kapply_skip]
  | repostCreate v => simp [applyEvent, lookupFollow, followKStep, kapply_skip]
  | blockCreate rkey did subject now =>
    simp only [applyEvent, lookupFollow, followKStep]
    split <;> simp [kapply_skip]
  | blockDelete rkey => simp [applyEvent, lookupFollow, followKStep, kapply_skip]


/-- Fold of the post-table locality over a counter-free event sequence. -/
theorem lookupPost_applyEvents (s : List Event)
    (hs : ∀ e ∈ s, noCounterEvent e = true) (T : Store) (u : String) :
    lookupPost (applyEvents s T) u
      = runK (s.map (fun e => postKStep e u)) (lookupPost T u) := by
  induction s generalizing T with
  | nil => rfl
  | cons e t ih =>
    have h1 : lookupPost (applyEvent e T) u = kapply (postKStep e u) (lookupPost T u) :=
      lookupPost_applyEvent e T u (hs e (by simp))
    calc lookupPost (applyEvents (e :: t) T) u
        = lookupPost (applyEvents t (applyEvent e T)) u := rfl
      _ = runK (t.map (fun e => postKStep e u)) (lookupPost (applyEvent e T) u) :=
          ih (fun x hx => hs x (by simp [hx])) _
      _ = runK ((e :: t).map (fun e => postKStep e u)) (lookupPost T u) := by
          rw [h1]; rfl

/-- Fold of the blocks-table locality over any event sequence. -/
theorem lookupBlock_applyEvents (s : List Event) (T : Store) (i : String) :
    lookupBlock (applyEvents s T) i
      = runK (s.map (fun e => blockKStep e i)) (lookupBlock T i) := by
  induction s generalizing T with
  | nil => rfl
  | cons e t ih =>
    calc lookupBlock (applyEvents (e :: t) T) i
        = lookupBlock (applyEvents t (applyEvent e T)) i := rfl
      _ = runK (t.map (fun e => blockKStep e i)) (lookupBlock (applyEvent e T) i) := ih _
      _ = runK ((e :: t).map (fun e => blockKStep e i)) (lookupBlock T i) := by
          rw [lookupBlock_applyEvent]; rfl

/-- Fold of the follows-table locality over any event sequence. -/
theorem lookupFollow_applyEvents (s : List Event) (T : Store) (i : String) :
    lookupFollow (applyEvents s T) i
      = runK (s.map (fun e => followKStep e i)) (lookupFollow T i) := by
  induction s generalizing T with
  | nil => rfl
  | cons e t ih =>
    calc lookupFollow (applyEvents (e :: t) T) i
        = lookupFollow (applyEvents t (applyEvent e T)) i := rfl
      _ = runK (t.map (fun e => followKStep e i)) (lookupFollow (applyEvent e T) i) := ih _
      _ = runK ((e :: t).map (fun e => followKStep e i)) (lookupFollow T i) := by
          rw [lookupFollow_applyEvent]; rfl

/-- Claim C2, amended: for event sequences without like/repost-create
events (post/block/follow creates and deletes), applying the sequence twice
from the empty store yields the same final store state as applying it once.
The like/repost counter updates are the sole obstruction (see the
counterexample). -/
theorem replay_idempotent_no_counters (s : List Event)
    (hs : ∀ e ∈ s, noCounterEvent e = true) :
    StoreEq (applyEvents (s ++ s) emptyStore) (applyEvents s emptyStore) := by
  have happ : applyEvents (s ++ s) emptyStore
      = applyEvents s (applyEvents s emptyStore) := by
    simp [applyEvents, List.foldl_append]
  rw [happ]
  refine ⟨fun u => ?_, fun i => ?_, fun i => ?_⟩
  · rw [lookupPost_applyEvents s hs, lookupPost_applyEvents s hs, runK_idem]
  · rw [lookupBlock_applyEvents, lookupBlock_applyEvents, runK_idem]
  · rw [lookupFollow_applyEvents, lookupFollow_applyEvents, runK_idem]

/-- The scenario sequence: create `P1`, then like it. -/
def cLikeSeq : List Event :=
  [.postCreate "did:plc:alice" "r1" "cid1" cRec "2024-01-01T00:00:00.000Z",
   .likeCreate cUri]

/-- Counterexample to claim C2 as stated: replaying `[post-create P1,
like-create P1]` twice gives `likes = 2`, once gives `likes = 1`, so the
final store states differ. -/
theorem replay_twice_differs_with_likes :
    ¬ StoreEq (applyEvents (cLikeSeq ++ cLikeSeq) emptyStore)
        (applyEvents cLikeSeq emptyStore) := by
  intro h
  exact absurd (h.1 cUri) (by decide)

/-- A counter-free sequence exercising create, delete and re-create across
all three tables. -/
def cNoCounterSeq : List Event :=
  [.postCreate "did:plc:alice" "r1" "cid1" cRec "2024-01-01T00:00:00.000Z",
   .blockCreate "b1" "did:plc:alice" "did:plc:bob" "2024-01-01T00:00:01.000Z",
   .followCreate "f1" "did:plc:alice" "did:plc:carol" "2024-01-01T00:00:02.000Z",
   .blockDelete "b1",
   .postDelete "r1",
   .blockCreate "b2" "did:plc:bob" "did:plc:alice" "2024-01-01T00:00:03.000Z",
   .followDelete "f1"]

/-- Witness for the amended C2 on a concrete counter-free sequence. -/
theorem replay_idempotent_no_counters_witness :
    (∀ e ∈ cNoCounterSeq, noCounterEvent e = true) ∧
    StoreEq (applyEvents (cNoCounterSeq ++ cNoCounterSeq) emptyStore)
      (applyEvents cNoCounterSeq emptyStore) :=
  ⟨by decide, replay_idempotent_no_counters _ (by decide)⟩


/-- Query parameters the serving boundary hands to a feed handler: `limit`
(always set by `app.ts`, optional in the lexicon type) and the opaque
cursor. -/
structure Params where
  limit : Option Int
  cursor : Option String
deriving DecidableEq, Repr

/-- A feed-skeleton page: the ordered post references (each `{post: uri}`
object represented by its uri string) and the optional continuation
cursor. -/
structure Page where
  feed : List String
  cursor : Option String
deriving DecidableEq, Repr

/-- The `ORDER BY indexedAt DESC, cid DESC` relation of the store-backed
queries (`a` may precede `b`). ISO-8601 timestamps compare correctly as
strings. -/
def timeCidGE (a b : PostRow) : Prop :=
  b.indexedAt < a.indexedAt ∨ (b.indexedAt = a.indexedAt ∧ b.cid ≤ a.cid)

instance : DecidableRel timeCidGE := fun a b => by
  unfold timeCidGE; infer_instance

/-- The cats-feed WHERE clause of the `cats` handler: exact tag match for
`cat`/`cats`/`kitten` (comma-bounded patterns) or partial alt-text match. -/
def catsMatch (p : PostRow) : Bool :=
  startsWithB p.tags "cat," || containsSub p.tags ",cat," ||
    endsWithB p.tags ",cat" || (p.tags == "cat") ||
  startsWithB p.tags "cats," || containsSub p.tags ",cats," ||
    endsWithB p.tags ",cats" || (p.tags == "cats") ||
  startsWithB p.tags "kitten," || containsSub p.tags ",kitten," ||
    endsWithB p.tags ",kitten" || (p.tags == "kitten") ||
  containsSub p.altText "cat" || containsSub p.altText "kitten"

/-- The cats SELECT: filter, optional keyset condition
`indexedAt < cursor-time`, order by (indexedAt, cid) descending, LIMIT. -/
def catsQuery (posts : List PostRow) (limit : Nat) (cursorTime : Option String) :
    List PostRow :=
  let matched := posts.filter catsMatch
  let filtered :=
    match cursorTime with
    | none => matched
    | some t => matched.filter (fun p => decide (p.indexedAt < t))
  (filtered.insertionSort timeCidGE).take limit

/-- The `cats` handler. The Date conversions
(`new Date(ms).toISOString()` and `new Date(iso).getTime()`) are external
library behavior and are passed in as `msToIso`/`isoToMs`. A cursor whose
`parseInt` is `NaN` makes `new Date(NaN).toISOString()` throw a
`RangeError`, modelled by the `Except.error` branch. -/
def catsHandler (msToIso : Int → String) (isoToMs : String → Int)
    (posts : List PostRow) (params : Params) : Except String Page :=
  let limit := (min (params.limit.getD 50) 100).toNat
  match params.cursor with
  | some c =>
    match jsParseInt c with
    | none => .error "RangeError: invalid time value"
    | some n =>
      let res := catsQuery posts limit (some (msToIso n))
      .ok { feed := res.map (fun r => r.uri),
            cursor := (res.getLast?).map (fun r => toString (isoToMs r.indexedAt)) }
  | none =>
    let res := catsQuery posts limit none
    .ok { feed := res.map (fun r => r.uri),
          cursor := (res.getLast?).map (fun r => toString (isoToMs r.indexedAt)) }

/-- The slice length of the `news-usa` / `build-in-public` handlers:
`Math.min(params.limit, 30)`; with an absent limit `Math.min(undefined, 30)`
is `NaN` and `slice(0, NaN)` is empty. -/
def newsTakeCount : Option Int → Nat
  | some n => (min n 30).toNat
  | none => 0

/-- The `news-usa` (and `build-in-public`) snapshot handler: a cid cursor
that matches no cached post is reset to "no cursor"; otherwise the page is
the slice after the matching index. -/
def newsUsaHandler (cache : List PostRow) (params : Params) : Page :=
  let lim := newsTakeCount params.limit
  match params.cursor with
  | none =>
    let feed := cache.take lim
    { feed := feed.map (fun p => p.uri), cursor := (feed.getLast?).map (fun p => p.cid) }
  | some c =>
    match cache.findIdx? (fun p => p.cid == c) with
    | none =>
      let feed := cache.take lim
      { feed := feed.map (fun p => p.uri), cursor := (feed.getLast?).map (fun p => p.cid) }
    | some i =>
      let feed := (cache.drop (i + 1)).take lim
      { feed := feed.map (fun p => p.uri), cursor := (feed.getLast?).map (fun p => p.cid) }

/-- The `lang-en` snapshot handler (cache entries are the cached `post`
field values). `Number(cursor)` comparisons with `NaN` are all false, so a
malformed (or absent) cursor returns the whole cache with cursor string
`NaN`; note that `params.limit` is never consulted. -/
def langEnHandler (cache : List String) (params : Params) : Page :=
  match jsNumberOpt params.cursor with
  | none => { feed := cache, cursor := some "NaN" }
  | some n =>
    if (cache.length : Int) ≤ n then { feed := [], cursor := some "-1" }
    else if 0 < n then { feed := cache.drop n.toNat, cursor := some (toString n) }
    else { feed := cache, cursor := some (toString n) }

/-- A feed-skeleton HTTP request: the three query parameters. -/
structure FeedRequest where
  feedParam : Option String
  limitParam : Option String
  cursorParam : Option String
deriving DecidableEq, Repr

/-- Accumulate the current path segment, restarting at every `/`. -/
def lastSegment : List Char → List Char → List Char
  | [], acc => acc.reverse
  | '/' :: t, _ => lastSegment t []
  | c :: t, acc => lastSegment t (c :: acc)

/-- The rkey of an at-uri (`new AtUri(feed).rkey`): its last path segment. -/
def parseRkey (s : String) : String :=
  String.mk (lastSegment s.toList [])

/-- An HTTP response of the feed-skeleton route: a JSON page, or a named
error response (which the route never actually produces — see C9). -/
inductive HttpResponse
  | json (p : Page)
  | errorResp (code : String)
deriving DecidableEq, Repr

/-- Whether a response surfaces an error to the caller. -/
def HttpResponse.isErrorResp : HttpResponse → Bool
  | .json _ => false
  | .errorResp _ => true

/-- The body of the try block of the `getFeedSkeleton` route: validate the
`feed` parameter, look up the algorithm, and run its handler on the
constructed params (`limit` built by `coerceLimit`). Thrown
`InvalidRequestError`s are the `Except.error` values. -/
def serveInner (reg : String → Option (Params → Except String Page))
    (req : FeedRequest) : Except String Page :=
  match req.feedParam with
  | none => .error "MissingFeed"
  | some feed =>
    match reg (parseRkey feed) with
    | none => .error "UnsupportedAlgorithm"
    | some h => h { limit := some (coerceLimit req.limitParam), cursor := req.cursorParam }

/-- The full route: the `catch` block converts every thrown error —
validation errors included — into the `{feed: []}` JSON response. -/
def serveFeedSkeleton (reg : String → Option (Params → Except String Page))
    (req : FeedRequest) : HttpResponse :=
  match serveInner reg req with
  | .ok p => .json p
  | .error _ => .json { feed := [], cursor := none }


/-- The banned-term list of the decayed-score (`bob`) algorithm. -/
def bannedWords : List String :=
  ["maga", "trump", "biden", "covid", "vaccine", "election", "politics",
   "racism", "hate", "war", "bomb", "gun", "violence", "kill", "donate",
   "money", "fund", "buy", "sell", "vbucks"]

/-- `post.text?.toLowerCase().includes(word)` over the banned list. -/
def hasBannedWord (p : PostRow) : Bool :=
  bannedWords.any (fun w => containsSub (jsToLower p.text) w)

/-- `post.hasImage === 1 && post.hasAlt === 0`. -/
def imageNoAlt (p : PostRow) : Bool :=
  p.hasImage == 1 && p.hasAlt == 0

/-- `!post.text` (the empty string is falsy). -/
def noText (p : PostRow) : Bool :=
  p.text == ""

/-- The check that `post.labels` includes `nsfw` or includes `porn`. -/
def nsfwLabeled (p : PostRow) : Bool :=
  containsSub p.labels "nsfw" || containsSub p.labels "porn"

/-- The four hard zeroing rules of `scorePost`, each independently
sufficient. -/
def scoreZeroed (p : PostRow) : Bool :=
  hasBannedWord p || imageNoAlt p || noText p || nsfwLabeled p

/-- A scored candidate: the spread `{...post, score}`. -/
structure Scored (σ : Type) where
  row : PostRow
  score : σ
deriving DecidableEq, Repr

/-- `scorePost`: score `0` when any zeroing rule fires, otherwise the
decayed-score value. The numeric branch
`(likes + 1) / (ageHours + 2)^1.8 + ln(max(replies, 1)) / 100` is
floating-point arithmetic on the wall clock; it enters the embedding as the
`base` parameter (instantiated with `bobRealScore` over `ℝ` in the
statements about the formula itself). -/
def scorePost {σ : Type} [Zero σ] (base : PostRow → σ) (p : PostRow) : Scored σ :=
  if scoreZeroed p then ⟨p, 0⟩ else ⟨p, base p⟩

/-- The comparator order of `.sort((a, b) => b.score - a.score)`: `a` may
precede `b` when the score of `b` is not larger. -/
def scoreGE {σ : Type} [LinearOrder σ] (a b : Scored σ) : Prop :=
  b.score ≤ a.score

instance {σ : Type} [LinearOrder σ] : DecidableRel (@scoreGE σ _) :=
  fun a b => inferInstanceAs (Decidable (b.score ≤ a.score))

instance {σ : Type} [LinearOrder σ] : IsTotal (Scored σ) scoreGE :=
  ⟨fun a b => le_total b.score a.score⟩

instance {σ : Type} [LinearOrder σ] : IsTrans (Scored σ) scoreGE :=
  ⟨fun _ _ _ hab hbc => le_trans hbc hab⟩

/-- Score the candidate set, drop non-positive scores, and sort descending
by score. JavaScript `Array.prototype.sort` is stable, so ties keep
candidate order; stable insertion sort computes the same list. -/
def bobScored {σ : Type} [LinearOrderedField σ] (base : PostRow → σ)
    (candidates : List PostRow) : List (Scored σ) :=
  ((candidates.map (scorePost base)).filter
      (fun sp => decide (0 < sp.score))).insertionSort scoreGE

/-- The cursor continuation test of the `bob` handler:
`post.score < cursor.score || (post.score === cursor.score && post.cid <
cursor.cid)`. -/
def cursorPredB {σ : Type} [LinearOrder σ] (c : σ × String) (sp : Scored σ) : Bool :=
  decide (sp.score < c.1) || (decide (sp.score = c.1) && decide (sp.row.cid < c.2))

/-- `startIndex`: the first index passing the cursor test; `findIndex`
returning `-1` is mapped to the list length, exactly as `List.findIdx`
does. -/
def bobStart {σ : Type} [LinearOrder σ] (sorted : List (Scored σ))
    (cursorData : Option (σ × String)) : Nat :=
  match cursorData with
  | none => 0
  | some c => sorted.findIdx (cursorPredB c)

/-- The served slice `scoredPosts.slice(startIndex, startIndex + limit)`. -/
def bobPageScored {σ : Type} [LinearOrderedField σ] (base : PostRow → σ)
    (candidates : List PostRow) (limit : Nat)
    (cursorData : Option (σ × String)) : List (Scored σ) :=
  let sorted := bobScored base candidates
  (sorted.drop (bobStart sorted cursorData)).take limit

/-- A `bob` page: the emitted cursor `${score}:${cid}` is represented by its
decoded (score, cid) content; the base64 text encoding is external. -/
structure BobPage (σ : Type) where
  feed : List String
  cursor : Option (σ × String)

/-- The `bob` handler on an already-decoded cursor: `candidates` is the
result of the bounded candidate query (top 1000 by likes then replies);
`cursorData` is the decoded `{score, cid}` (or `none` when the cursor is
absent). -/
def bobHandler {σ : Type} [LinearOrderedField σ] (base : PostRow → σ)
    (candidates : List PostRow) (params : Params)
    (cursorData : Option (σ × String)) : BobPage σ :=
  let limit := (min (params.limit.getD 50) 100).toNat
  let processed := bobPageScored base candidates limit cursorData
  { feed := processed.map (fun sp => sp.row.uri),
    cursor := (processed.getLast?).map (fun sp => (sp.score, sp.row.cid)) }

/-- The decayed-score formula of `scorePost` over the reals:
`(likes + 1) / (ageHours + 2)^1.8 + ln(max(replies, 1)) / 100`, where the
age is `(nowSec - postSec)` seconds. The Date parse of `indexedAt` and the
wall clock enter as parameters; the code computes this in IEEE doubles,
idealized here by `ℝ`. -/
noncomputable def bobRealScore (postSec : String → ℝ) (nowSec : ℝ)
    (p : PostRow) : ℝ :=
  let timeDiff := nowSec - postSec p.indexedAt
  let hours := timeDiff / 3600
  ((p.likes : ℝ) + 1) / (hours + 2) ^ (1.8 : ℝ)
    + Real.log (max (p.replies : ℝ) 1) / 100


/-- Claim C1 (code-bug demonstration): the post-delete handler runs
`DELETE FROM post WHERE uri = event.commit.rkey` with the bare record key,
which never equals the derived `at://{did}/app.bsky.feed.post/{rkey}` uri
under which post-create stored the row. Deleting the `P1` record key `r1`
leaves the store unchanged, `P1` still present under its derived uri, and
the cats feed still returns `P1`. -/
theorem post_delete_by_rkey_is_noop :
    applyEvent (.postDelete "r1") cStore = cStore ∧
    lookupPost (applyEvent (.postDelete "r1") cStore) cUri = some cRow ∧
    catsHandler (fun _ => "") (fun _ => 0) (applyEvent (.postDelete "r1") cStore).posts
        { limit := some 10, cursor := none }
      = .ok { feed := [cUri], cursor := some "0" } := by
  refine ⟨by decide, by decide, by rfl⟩

/-- Scoring never changes the row itself (`{...post, score}`). -/
theorem scorePost_row {σ : Type} [Zero σ] (base : PostRow → σ) (p : PostRow) :
    (scorePost base p).row = p := by
  unfold scorePost; split <;> rfl

/-- Claim C5: any candidate hit by a zeroing rule — banned term
(case-insensitive substring), nsfw/porn label, image without alt text, or
empty text — is assigned score 0 and is absent from the returned page, for
every scoring base (hence regardless of like count), every limit and every
cursor. `huniq` is the primary-key uniqueness of `uri` in the candidate
set. -/
theorem zeroed_posts_excluded {σ : Type} [LinearOrderedField σ]
    (base : PostRow → σ) (candidates : List PostRow) (params : Params)
    (cursorData : Option (σ × String)) (p : PostRow)
    (hp : p ∈ candidates)
    (huniq : ∀ q ∈ candidates, q.uri = p.uri → q = p)
    (hzero : hasBannedWord p = true ∨ nsfwLabeled p = true ∨
      imageNoAlt p = true ∨ noText p = true) :
    (scorePost base p).score = 0 ∧
    p.uri ∉ (bobHandler base candidates params cursorData).feed := by
  have hz : scoreZeroed p = true := by
    unfold scoreZeroed
    rcases hzero with h | h | h | h <;> simp [h]
  refine ⟨by unfold scorePost; rw [if_pos hz], ?_⟩
  intro hmem
  rcases List.mem_map.mp hmem with ⟨sp, hsp, huri⟩
  have h1 : sp ∈ bobScored base candidates := by
    have h1a := List.mem_of_mem_take hsp
    exact List.mem_of_mem_drop h1a
  have h2 : sp ∈ (candidates.map (scorePost base)).filter
      (fun sp => decide (0 < sp.score)) :=
    ((List.perm_insertionSort scoreGE _).mem_iff).mp h1
  rcases List.mem_filter.mp h2 with ⟨hmm, hpos⟩
  rcases List.mem_map.mp hmm with ⟨q, hq, hqsp⟩
  have hquri : q.uri = p.uri := by
    have := scorePost_row base q
    rw [← huri, ← hqsp, this]
  have hqp : q = p := huniq q hq hquri
  subst hqp
  have hzeroed : sp.score = 0 := by
    rw [← hqsp]
    unfold scorePost
    rw [if_pos hz]
  exact absurd (of_decide_eq_true hpos) (by rw [hzeroed]; exact lt_irrefl 0)

/-- A candidate hit by the banned-word rule (text `free vbucks now`). -/
def cBannedPost : PostRow :=
  { author := "did:plc:x", uri := "at://did:plc:x/app.bsky.feed.post/b1",
    cid := "cb", indexedAt := "2024-01-01T00:00:00.000Z",
    text := "free vbucks now", langs := "", likes := 1000, replies := 0,
    labels := "", hasImage := 0, hasAlt := 0, altText := "", embedUrl := "",
    tags := "" }

/-- Witness for C5: the banned post scores 0 and is absent even with 1000
likes. -/
theorem zeroed_posts_excluded_witness :
    cBannedPost ∈ [cBannedPost] ∧
    ((scorePost (fun _ => (1 : ℚ)) cBannedPost).score = 0 ∧
      cBannedPost.uri ∉ (bobHandler (fun _ => (1 : ℚ)) [cBannedPost]
        { limit := some 50, cursor := none } none).feed) :=
  ⟨by decide,
    zeroed_posts_excluded (fun _ => (1 : ℚ)) [cBannedPost]
      { limit := some 50, cursor := none } none cBannedPost (by decide)
      (by decide) (Or.inl (by decide))⟩


/-- If the test is suffix-closed along a list, the suffix starting at the
first passing element is exactly the sublist of passing elements. -/
theorem drop_findIdx_eq_filter (l : List α) (p : α → Bool)
    (h : l.Pairwise (fun a b => p a = true → p b = true)) :
    l.drop (l.findIdx p) = l.filter p := by
  induction l with
  | nil => rfl
  | cons a t ih =>
    rcases List.pairwise_cons.mp h with ⟨hhead, htail⟩
    cases hp : p a with
    | true =>
      have hall : ∀ b ∈ t, p b = true := fun b hb => hhead b hb hp
      rw [List.findIdx_cons]
      simp [hp, List.filter_cons, List.filter_eq_self.mpr hall]
    | false =>
      rw [List.findIdx_cons]
      simp only [hp, cond_false, List.drop_succ_cons, List.filter_cons]
      simpa [hp] using ih htail

/-- Claim C6, amended: the returned candidates are sorted descending by
final score with ties kept in candidate order (stable sort — not tie-broken
by cid), and when all retained scores are distinct the continuation page for
cursor `(score, id)` is exactly the strictly-lower items (first `limit` of
them). Without distinctness the page is the contiguous slice from the first
qualifying item, which may include tied items with higher cid. -/
theorem bob_sorted_and_cursor_slice {σ : Type} [LinearOrderedField σ]
    (base : PostRow → σ) (candidates : List PostRow) (limit : Nat)
    (c : σ × String) :
    (bobScored base candidates).Pairwise scoreGE ∧
    ((bobScored base candidates).Pairwise (fun a b => b.score < a.score) →
      bobPageScored base candidates limit (some c)
        = ((bobScored base candidates).filter (cursorPredB c)).take limit) := by
  constructor
  · exact List.sorted_insertionSort _ _
  · intro hstrict
    have himp : (bobScored base candidates).Pairwise
        (fun a b => cursorPredB c a = true → cursorPredB c b = true) := by
      refine hstrict.imp ?_
      intro a b hlt hpa
      have hpa2 : a.score < c.1 ∨ (a.score = c.1 ∧ a.row.cid < c.2) := by
        simpa [cursorPredB] using hpa
      have hle : a.score ≤ c.1 := by
        rcases hpa2 with h1 | h2
        · exact le_of_lt h1
        · exact le_of_eq h2.1
      have hb : b.score < c.1 := lt_of_lt_of_le hlt hle
      show cursorPredB c b = true
      simp [cursorPredB, hb]
    show List.take limit
        (List.drop (List.findIdx (cursorPredB c) (bobScored base candidates))
          (bobScored base candidates))
      = ((bobScored base candidates).filter (cursorPredB c)).take limit
    rw [drop_findIdx_eq_filter _ _ himp]

/-- First of the two tied candidates (cid `a`). -/
def cTiePostA : PostRow :=
  { author := "did:plc:x", uri := "at://did:plc:x/app.bsky.feed.post/t1",
    cid := "a", indexedAt := "2024-01-01T00:00:00.000Z", text := "hi",
    langs := "", likes := 0, replies := 0, labels := "", hasImage := 0,
    hasAlt := 0, altText := "", embedUrl := "", tags := "" }

/-- Second tied candidate, identical except uri and a larger cid `b`. -/
def cTiePostB : PostRow :=
  { author := "did:plc:x", uri := "at://did:plc:x/app.bsky.feed.post/t2",
    cid := "b", indexedAt := "2024-01-01T00:00:00.000Z", text := "hi",
    langs := "", likes := 0, replies := 0, labels := "", hasImage := 0,
    hasAlt := 0, altText := "", embedUrl := "", tags := "" }


/-- Counterexample to claim C6 as stated: two candidates identical except
for uri and cid (cids `a` < `b`, in candidate order `a` then `b`) receive
equal real-valued decayed scores, and the returned page keeps them in
candidate order `[a, b]` — violating the claimed descending-cid tie-break,
which would require `b` before `a`. -/
theorem bob_no_cid_tiebreak :
    ¬ (bobPageScored (bobRealScore (fun _ => 0) 0) [cTiePostA, cTiePostB] 50
        none).Pairwise
      (fun a b => b.score < a.score ∨ (b.score = a.score ∧ b.row.cid < a.row.cid)) := by
  intro h
  have hzA : ¬ (scoreZeroed cTiePostA = true) := by decide
  have hzB : ¬ (scoreZeroed cTiePostB = true) := by decide
  set s : ℝ := bobRealScore (fun _ => 0) 0 cTiePostA with hsdef
  have hpos : (0 : ℝ) < s := by
    rw [hsdef]
    unfold bobRealScore
    simp only [cTiePostA]
    rw [max_eq_right (by norm_num : ((0 : ℕ) : ℝ) ≤ 1), Real.log_one]
    norm_num
    positivity
  have hspA : scorePost (bobRealScore (fun _ => 0) 0) cTiePostA = ⟨cTiePostA, s⟩ := by
    unfold scorePost
    rw [if_neg hzA]
  have hspB : scorePost (bobRealScore (fun _ => 0) 0) cTiePostB = ⟨cTiePostB, s⟩ := by
    unfold scorePost
    rw [if_neg hzB]
    rfl
  have hsort : bobScored (bobRealScore (fun _ => 0) 0) [cTiePostA, cTiePostB]
      = [⟨cTiePostA, s⟩, ⟨cTiePostB, s⟩] := by
    unfold bobScored
    rw [List.map_cons, List.map_cons, List.map_nil, hspA, hspB]
    rw [show (List.filter (fun sp => decide (0 < sp.score))
        [(⟨cTiePostA, s⟩ : Scored ℝ), ⟨cTiePostB, s⟩])
      = [⟨cTiePostA, s⟩, ⟨cTiePostB, s⟩] from by
        simp [List.filter, decide_eq_true hpos]]
    simp only [List.insertionSort, List.orderedInsert]
    rw [if_pos (show scoreGE (⟨cTiePostA, s⟩ : Scored ℝ) ⟨cTiePostB, s⟩ from le_refl s)]
  have hpage : bobPageScored (bobRealScore (fun _ => 0) 0) [cTiePostA, cTiePostB] 50 none
      = [⟨cTiePostA, s⟩, ⟨cTiePostB, s⟩] := by
    show List.take 50 (List.drop 0
        (bobScored (bobRealScore (fun _ => 0) 0) [cTiePostA, cTiePostB])) = _
    rw [hsort]
    simp
  rw [hpage] at h
  rcases List.pairwise_cons.mp h with ⟨hhead, _⟩
  have hAB := hhead ⟨cTiePostB, s⟩ (by simp)
  simp only [cTiePostA, cTiePostB] at hAB
  rcases hAB with h1 | h2
  · exact absurd h1 (lt_irrefl s)
  · refine absurd h2.2 ?_
    rw [String.lt_iff_toList_lt]
    decide


/-- Higher-scored concrete candidate (5 likes). -/
def cQPostHi : PostRow :=
  { author := "did:plc:x", uri := "at://did:plc:x/app.bsky.feed.post/h1",
    cid := "h", indexedAt := "2024-01-01T00:00:00.000Z", text := "hi",
    langs := "", likes := 5, replies := 0, labels := "", hasImage := 0,
    hasAlt := 0, altText := "", embedUrl := "", tags := "" }

/-- Lower-scored concrete candidate (3 likes). -/
def cQPostLo : PostRow :=
  { author := "did:plc:x", uri := "at://did:plc:x/app.bsky.feed.post/l1",
    cid := "l", indexedAt := "2024-01-01T00:00:00.000Z", text := "hi",
    langs := "", likes := 3, replies := 0, labels := "", hasImage := 0,
    hasAlt := 0, altText := "", embedUrl := "", tags := "" }

/-- Witness for the amended C6: with distinct scores (5 and 3, cursor score
4) the continuation page is exactly the strictly-lower items. -/
theorem bob_sorted_and_cursor_slice_witness :
    ((bobScored (fun p => (p.likes : ℚ)) [cQPostHi, cQPostLo]).Pairwise
        (fun a b => b.score < a.score)) ∧
    ((bobScored (fun p => (p.likes : ℚ)) [cQPostHi, cQPostLo]).Pairwise scoreGE ∧
      bobPageScored (fun p => (p.likes : ℚ)) [cQPostHi, cQPostLo] 50 (some (4, "x"))
        = ((bobScored (fun p => (p.likes : ℚ)) [cQPostHi, cQPostLo]).filter
            (cursorPredB (4, "x"))).take 50) :=
  ⟨by decide,
   (bob_sorted_and_cursor_slice (fun p => (p.likes : ℚ)) [cQPostHi, cQPostLo]
      50 (4, "x")).1,
   (bob_sorted_and_cursor_slice (fun p => (p.likes : ℚ)) [cQPostHi, cQPostLo]
      50 (4, "x")).2 (by decide)⟩


/-- The cats algorithm over the scenario store, with trivial Date
conversions. -/
def cCatsAlgo : Params → Except String Page :=
  fun pr => catsHandler (fun _ => "") (fun _ => 0) cStore.posts pr

/-- A registry holding only the cats algorithm. -/
def cRegistry : String → Option (Params → Except String Page) :=
  fun name => if name = "cats" then some cCatsAlgo else none

/-- The published feed uri whose rkey selects the cats algorithm. -/
def cCatsFeedUri : String := "at://did:plc:alice/app.bsky.feed.generator/cats"

/-- Counterexample to claim C7 as stated: for the cats algorithm the
non-numeric cursor `garbage` makes `new Date(NaN).toISOString()` throw, the
boundary catches and returns the empty feed — while the same request
without a cursor returns the post. A malformed cursor is therefore not
equivalent to "no cursor". -/
theorem cats_malformed_cursor_differs :
    serveFeedSkeleton cRegistry ⟨some cCatsFeedUri, none, some "garbage"⟩
        = .json { feed := [], cursor := none } ∧
    serveFeedSkeleton cRegistry ⟨some cCatsFeedUri, none, none⟩
        = .json { feed := [cUri], cursor := some "0" } ∧
    (Page.mk [] none ≠ Page.mk [cUri] (some "0")) := by
  refine ⟨by rfl, by rfl, by decide⟩


/-- Claim C7, amended: a malformed cursor never surfaces an error to the
caller, but is not always treated as "no cursor": for the store-backed
keyset feeds (cats handler) a non-numeric cursor aborts the handler and the
boundary returns the empty feed; the snapshot feeds treat it as no cursor —
news-usa when the cid matches nothing, lang-en because every `NaN`
comparison is false. -/
theorem malformed_cursor_amended
    (conv1 : Int → String) (conv2 : String → Int) (posts cache : List PostRow)
    (lcache : List String) (lim : Option Int) (lp : Option String)
    (reg : String → Option (Params → Except String Page)) (f c : String)
    (hreg : reg (parseRkey f) = some (fun pr => catsHandler conv1 conv2 posts pr))
    (hc : jsParseInt c = none)
    (hcid : cache.findIdx? (fun p => p.cid == c) = none)
    (hnum : jsNumberStr c = none) :
    serveFeedSkeleton reg ⟨some f, lp, some c⟩
        = .json { feed := [], cursor := none } ∧
    newsUsaHandler cache { limit := lim, cursor := some c }
      = newsUsaHandler cache { limit := lim, cursor := none } ∧
    langEnHandler lcache { limit := lim, cursor := some c }
      = langEnHandler lcache { limit := lim, cursor := none } := by
  refine ⟨?_, ?_, ?_⟩
  · simp only [serveFeedSkeleton, serveInner, hreg, catsHandler, hc]
  · simp only [newsUsaHandler, hcid]
  · simp only [langEnHandler, jsNumberOpt, hnum]

/-- Witness for the amended C7 at cursor string `garbage`. -/
theorem malformed_cursor_amended_witness :
    jsParseInt "garbage" = none ∧
    (serveFeedSkeleton cRegistry ⟨some cCatsFeedUri, none, some "garbage"⟩
        = .json { feed := [], cursor := none } ∧
     newsUsaHandler [cQPostHi] { limit := some 10, cursor := some "garbage" }
        = newsUsaHandler [cQPostHi] { limit := some 10, cursor := none } ∧
     langEnHandler ["x1", "x2"] { limit := some 10, cursor := some "garbage" }
        = langEnHandler ["x1", "x2"] { limit := some 10, cursor := none }) :=
  ⟨by decide,
    malformed_cursor_amended (fun _ => "") (fun _ => 0) cStore.posts [cQPostHi]
      ["x1", "x2"] (some 10) none cRegistry cCatsFeedUri "garbage" rfl
      (by decide) (by decide) (by decide)⟩


/-- Counterexample to claim C8 as stated: the `lang-en` handler never
consults `params.limit` — with a two-entry snapshot and requested limit 1
it returns both entries. -/
theorem lang_feed_ignores_limit :
    ((langEnHandler ["c1", "c2"] { limit := some 1, cursor := none }).feed).length = 2 ∧
    ¬ (((langEnHandler ["c1", "c2"] { limit := some 1, cursor := none }).feed).length ≤ 1) := by
  refine ⟨by decide, by decide⟩

/-- Claim C8, amended: the page size respects the requested limit with the
per-algorithm hard caps for the store-backed feeds (cats, bob: at most
`min(limit, 100)`) and the news-usa/build-in-public snapshot feeds (at most
`min(limit, 30)`) — but not for the `lang-*` feeds, which ignore the limit
(see the counterexample). -/
theorem page_length_bounds {σ : Type} [LinearOrderedField σ]
    (base : PostRow → σ) (conv1 : Int → String) (conv2 : String → Int)
    (posts cands cache : List PostRow) (params : Params)
    (cursorData : Option (σ × String)) (lim : Int) :
    (∀ pg, catsHandler conv1 conv2 posts params = .ok pg →
      pg.feed.length ≤ (min (params.limit.getD 50) 100).toNat) ∧
    ((bobHandler base cands params cursorData).feed.length
      ≤ (min (params.limit.getD 50) 100).toNat) ∧
    (params.limit = some lim →
      (newsUsaHandler cache params).feed.length ≤ (min lim 30).toNat) := by
  rcases params with ⟨plimit, pcursor⟩
  refine ⟨?_, ?_, ?_⟩
  · intro pg hpg
    cases pcursor with
    | none =>
      simp only [catsHandler] at hpg
      cases hpg
      simp only [List.length_map]
      unfold catsQuery
      exact List.length_take_le _ _
    | some c =>
      cases hpi : jsParseInt c with
      | none =>
        simp only [catsHandler, hpi] at hpg
        exact absurd hpg (by simp)
      | some n =>
        simp only [catsHandler, hpi] at hpg
        cases hpg
        simp only [List.length_map]
        unfold catsQuery
        exact List.length_take_le _ _
  · simp only [bobHandler, List.length_map]
    unfold bobPageScored
    exact List.length_take_le _ _
  · intro hlim
    simp only at hlim
    subst hlim
    unfold newsUsaHandler newsTakeCount
    cases pcursor with
    | none =>
      simp only [List.length_map]
      exact List.length_take_le _ _
    | some c =>
      cases h : List.findIdx? (fun p => p.cid == c) cache with
      | none =>
        simp only [h, List.length_map]
        exact List.length_take_le _ _
      | some i =>
        simp only [h, List.length_map]
        exact List.length_take_le _ _

/-- Witness for the amended C8 with requested limit 10. -/
theorem page_length_bounds_witness :
    (catsHandler (fun _ => "") (fun _ => 0) cStore.posts
        { limit := some 10, cursor := none } = .ok (Page.mk [cUri] (some "0"))) ∧
    ((Page.mk [cUri] (some "0")).feed.length
        ≤ (min ((Params.mk (some 10) none).limit.getD 50) 100).toNat ∧
      ((bobHandler (fun p => (p.likes : ℚ)) [cQPostHi]
          (Params.mk (some 10) none) none).feed.length
        ≤ (min ((Params.mk (some 10) none).limit.getD 50) 100).toNat ∧
      ((newsUsaHandler [cQPostHi] (Params.mk (some 10) none)).feed.length
          ≤ (min (10 : Int) 30).toNat))) :=
  ⟨by rfl,
    (page_length_bounds (fun p => (p.likes : ℚ)) (fun _ => "") (fun _ => 0)
        cStore.posts [cQPostHi] [cQPostHi] (Params.mk (some 10) none) none 10).1
      (Page.mk [cUri] (some "0")) (by rfl),
    (page_length_bounds (fun p => (p.likes : ℚ)) (fun _ => "") (fun _ => 0)
        cStore.posts [cQPostHi] [cQPostHi] (Params.mk (some 10) none) none 10).2.1,
    (page_length_bounds (fun p => (p.likes : ℚ)) (fun _ => "") (fun _ => 0)
        cStore.posts [cQPostHi] [cQPostHi] (Params.mk (some 10) none) none 10).2.2
      (by rfl)⟩


/-- Counterexample to claim C9 as stated: the catch-all of the route converts the
thrown `MissingFeed` / `UnsupportedAlgorithm` validation errors into the
same `{feed: []}` JSON response used for internal failures — no named error
response reaches the caller. -/
theorem validation_errors_not_surfaced :
    serveFeedSkeleton cRegistry ⟨none, none, none⟩ = .json (Page.mk [] none) ∧
    (serveFeedSkeleton cRegistry ⟨none, none, none⟩).isErrorResp = false ∧
    serveFeedSkeleton cRegistry
        ⟨some "at://did:plc:alice/app.bsky.feed.generator/unknown", none, none⟩
      = .json (Page.mk [] none) ∧
    (serveFeedSkeleton cRegistry
        ⟨some "at://did:plc:alice/app.bsky.feed.generator/unknown", none, none⟩).isErrorResp
      = false := by
  refine ⟨by rfl, by rfl, by rfl, by rfl⟩

/-- Claim C9, amended: every failure at the serving boundary — missing feed
parameter, unregistered algorithm, and errors thrown inside a handler —
degrades to the `{feed: []}` JSON response (the named validation errors are
thrown but caught by the catch of the route itself); a successful handler result is
returned as-is. -/
theorem serve_boundary_degrades
    (reg : String → Option (Params → Except String Page)) (req : FeedRequest) :
    (req.feedParam = none → serveFeedSkeleton reg req = .json (Page.mk [] none)) ∧
    (∀ f, req.feedParam = some f → reg (parseRkey f) = none →
      serveFeedSkeleton reg req = .json (Page.mk [] none)) ∧
    (∀ f h e, req.feedParam = some f → reg (parseRkey f) = some h →
      h { limit := some (coerceLimit req.limitParam), cursor := req.cursorParam }
          = .error e →
      serveFeedSkeleton reg req = .json (Page.mk [] none)) ∧
    (∀ f h p, req.feedParam = some f → reg (parseRkey f) = some h →
      h { limit := some (coerceLimit req.limitParam), cursor := req.cursorParam }
          = .ok p →
      serveFeedSkeleton reg req = .json p) := by
  refine ⟨?_, ?_, ?_, ?_⟩
  · intro hf
    simp only [serveFeedSkeleton, serveInner, hf]
  · intro f hf hreg
    simp only [serveFeedSkeleton, serveInner, hf, hreg]
  · intro f h e hf hreg hh
    simp only [serveFeedSkeleton, serveInner, hf, hreg, hh]
  · intro f h p hf hreg hh
    simp only [serveFeedSkeleton, serveInner, hf, hreg, hh]

/-- Witness for the amended C9: a request with no feed parameter gets the
empty-feed JSON response. -/
theorem serve_boundary_degrades_witness :
    (FeedRequest.mk none none none).feedParam = none ∧
    serveFeedSkeleton cRegistry ⟨none, none, none⟩ = .json (Page.mk [] none) :=
  ⟨rfl, (serve_boundary_degrades cRegistry ⟨none, none, none⟩).1 rfl⟩

/-- Claim C10: `Number(limit) || 50` coerces an explicit `limit=0` and every
non-numeric limit string to the default 50 before the algorithm runs, so a
request explicitly asking for zero items is served with limit 50 and can
receive items (the cats request with `limit=0` returns the scenario
post). -/
theorem limit_zero_or_nan_coerced (s : String) (hnan : jsNumberStr s = none) :
    coerceLimit (some "0") = 50 ∧ coerceLimit (some s) = 50 ∧
    coerceLimit none = 50 ∧
    serveFeedSkeleton cRegistry ⟨some cCatsFeedUri, some "0", none⟩
      = .json (Page.mk [cUri] (some "0")) := by
  refine ⟨by decide, ?_, by decide, by rfl⟩
  simp only [coerceLimit, jsNumberOpt, hnan]

/-- Witness for C10 at the non-numeric limit string `abc`. -/
theorem limit_zero_or_nan_coerced_witness :
    jsNumberStr "abc" = none ∧
    (coerceLimit (some "0") = 50 ∧ coerceLimit (some "abc") = 50 ∧
     coerceLimit none = 50 ∧
     serveFeedSkeleton cRegistry ⟨some cCatsFeedUri, some "0", none⟩
       = .json (Page.mk [cUri] (some "0"))) :=
  ⟨by decide, limit_zero_or_nan_coerced "abc" (by decide)⟩

